import Mathlib

/-!
Verification of the bull job-queue wrapper.

The development shallowly embeds the TypeScript sources:
- the configuration object bullMQConfig (src/bullmq/config.ts),
- the TypedQueue class with registerJob / getRegisteredJobs / createWorker
  (src/bullmq/registry.ts),
- the QueueRegistry singleton with getQueue (src/bullmq/registry.ts),
- the SSE subscribe route (src/app/api/jobs/[jobId]/subscribe/route.ts),
- and, where the behaviour lives in the BullMQ dependency rather than in
  the repository sources, models written from the specification text
  (each such definition says so in its doc comment).

JavaScript Maps are embedded as association lists in insertion order;
Map.get is mapGet, Map.has is (mapGet ..).isSome, Map.set appends.
Processor functions and TypedQueue objects are identified by opaque
natural-number ids, since the claims only compare them for identity.
-/

/-- JavaScript Map.get over an insertion-ordered association list. -/
def mapGet (l : List (String × Nat)) (k : String) : Option Nat :=
  match l with
  | [] => none
  | (k0, v) :: rest => if k0 = k then some v else mapGet rest k

/-- Option.orElse without the thunk, for readability of lemmas. -/
def orElseO (a b : Option Nat) : Option Nat :=
  match a with
  | some v => some v
  | none => b

theorem mapGet_append (l1 l2 : List (String × Nat)) (k : String) :
    mapGet (l1 ++ l2) k = orElseO (mapGet l1 k) (mapGet l2 k) := by
  induction l1 with
  | nil => simp [mapGet, orElseO]
  | cons p rest ih =>
    by_cases h : p.1 = k
    · simp [mapGet, h, orElseO]
    · simp [mapGet, h, ih]

/-- Backoff options as passed to BullMQ: a type tag and a base delay in ms. -/
structure BackoffOptions where
  type : String
  delay : Nat
deriving DecidableEq

/-- The removeOnComplete count from src/bullmq/config.ts: keep 1000 completed. -/
def removeOnCompleteCount : Nat := 1000

/-- The removeOnFail count from src/bullmq/config.ts: keep 5000 failed. -/
def removeOnFailCount : Nat := 5000

/-- The BullMQConfig interface from src/bullmq/config.ts. -/
structure BullMQConfig where
  concurrency : Nat
  defaultAttempts : Nat
  defaultBackoff : BackoffOptions
  removeOnComplete : Nat
  removeOnFail : Nat
deriving DecidableEq

/-- The three BULLMQ_* environment variables read by src/bullmq/config.ts,
none when unset (parseInt of a set variable is modelled as the Nat it yields). -/
structure EnvConfig where
  bullmqConcurrency : Option Nat
  bullmqDefaultAttempts : Option Nat
  bullmqBackoffDelay : Option Nat

/-- getDefaultConcurrency from src/bullmq/config.ts: Math.max(1, os.cpus().length). -/
def getDefaultConcurrency (cpuCount : Nat) : Nat := max 1 cpuCount

/-- bullMQConfig from src/bullmq/config.ts, as a function of the environment
and the host cpu count. -/
def bullMQConfig (env : EnvConfig) (cpuCount : Nat) : BullMQConfig :=
  { concurrency :=
      match env.bullmqConcurrency with
      | some n => n
      | none => getDefaultConcurrency cpuCount
    defaultAttempts :=
      match env.bullmqDefaultAttempts with
      | some n => n
      | none => 3
    defaultBackoff :=
      { type := "exponential"
        delay :=
          match env.bullmqBackoffDelay with
          | some n => n
          | none => 3000 }
    removeOnComplete := removeOnCompleteCount
    removeOnFail := removeOnFailCount }

/-- The defaultJobOptions passed to the BullMQ Queue constructor. -/
structure DefaultJobOptions where
  attempts : Nat
  backoff : BackoffOptions
deriving DecidableEq

/-- The underlying BullMQ Queue object, as far as the claims observe it. -/
structure QueueObj where
  name : String
  defaultJobOptions : DefaultJobOptions
deriving DecidableEq

/-- The TypedQueue class of src/bullmq/registry.ts: the wrapped Queue plus the
processors Map (processor functions identified by opaque ids). -/
structure TypedQueue where
  queue : QueueObj
  processors : List (String × Nat)

/-- The TypedQueue constructor: builds the Queue with defaultJobOptions taken
from bullMQConfig, and an empty processors Map. -/
def mkTypedQueue (cfg : BullMQConfig) (queueName : String) : TypedQueue :=
  { queue :=
      { name := queueName
        defaultJobOptions :=
          { attempts := cfg.defaultAttempts
            backoff := cfg.defaultBackoff } }
    processors := [] }

/-- TypedQueue.registerJob: a no-op (plus console.warn) when the name is
already bound, otherwise Map.set of the processor. -/
def registerJob (q : TypedQueue) (jobName : String) (processor : Nat) : TypedQueue :=
  if (mapGet q.processors jobName).isSome then q
  else { q with processors := q.processors ++ [(jobName, processor)] }

/-- TypedQueue.getProcessor: Map.get on the processors Map. -/
def getProcessor (q : TypedQueue) (jobName : String) : Option Nat :=
  mapGet q.processors jobName

/-- TypedQueue.getRegisteredJobs: the keys of the processors Map. -/
def getRegisteredJobs (q : TypedQueue) : List String :=
  q.processors.map Prod.fst

/-- A whole sequence of registerJob calls, applied in order. -/
def applyRegisters (q : TypedQueue) (calls : List (String × Nat)) : TypedQueue :=
  calls.foldl (fun m c => registerJob m c.1 c.2) q

/-- The processor of the first call in the sequence for a given name. -/
def firstCall (calls : List (String × Nat)) (jobName : String) : Option Nat :=
  (calls.find? (fun c => c.1 == jobName)).map Prod.snd

theorem registerJob_processors (q : TypedQueue) (jobName : String) (p : Nat) :
    (registerJob q jobName p).processors =
      if (mapGet q.processors jobName).isSome then q.processors
      else q.processors ++ [(jobName, p)] := by
  by_cases h : (mapGet q.processors jobName).isSome <;> simp [registerJob, h]

theorem mapGet_applyRegisters (q : TypedQueue) (calls : List (String × Nat))
    (jobName : String) :
    mapGet (applyRegisters q calls).processors jobName =
      orElseO (mapGet q.processors jobName) (firstCall calls jobName) := by
  induction calls generalizing q with
  | nil =>
    cases h : mapGet q.processors jobName <;>
      simp [applyRegisters, firstCall, orElseO, h]
  | cons c rest ih =>
    have hstep : applyRegisters q (c :: rest) =
        applyRegisters (registerJob q c.1 c.2) rest := by
      simp [applyRegisters]
    rw [hstep, ih]
    by_cases hk : c.1 = jobName
    · subst hk
      cases h : mapGet q.processors c.1 with
      | some v =>
        have hkeep : (registerJob q c.1 c.2).processors = q.processors := by
          rw [registerJob_processors]
          simp [h]
        simp [hkeep, h, orElseO, firstCall, List.find?]
      | none =>
        have hset : (registerJob q c.1 c.2).processors =
            q.processors ++ [(c.1, c.2)] := by
          rw [registerJob_processors]
          simp [h]
        rw [hset, mapGet_append]
        simp [h, orElseO, mapGet, firstCall, List.find?]
    · have hbeq : (c.1 == jobName) = false := by
        simp [hk]
      by_cases hc : (mapGet q.processors c.1).isSome
      · have hkeep : (registerJob q c.1 c.2).processors = q.processors := by
          rw [registerJob_processors]; simp [hc]
        rw [hkeep]
        simp [firstCall, List.find?, hbeq]
      · have hset : (registerJob q c.1 c.2).processors =
            q.processors ++ [(c.1, c.2)] := by
          rw [registerJob_processors]; simp [hc]
        rw [hset, mapGet_append]
        cases hv : mapGet q.processors jobName with
        | some v => simp [orElseO, firstCall, List.find?, hbeq]
        | none => simp [orElseO, mapGet, hk, firstCall, List.find?, hbeq]

/-- Claim C4: every job name is bound to at most one processor, namely the one
of the first registerJob call for that name: starting from a fresh TypedQueue,
after any sequence of registerJob calls the processor bound to a name is the
one of the first call for that name, and a registration attempt on an
already-bound name leaves the TypedQueue (hence the processor map) unchanged —
no error is raised, the binding survives. -/
theorem registerJob_first_registration_wins (cfg : BullMQConfig)
    (queueName : String) (calls : List (String × Nat)) (jobName : String) :
    getProcessor (applyRegisters (mkTypedQueue cfg queueName) calls) jobName =
      firstCall calls jobName ∧
    (∀ (q : TypedQueue) (p : Nat),
      (getProcessor q jobName).isSome → registerJob q jobName p = q) := by
  constructor
  · rw [getProcessor, mapGet_applyRegisters]
    simp [mkTypedQueue, mapGet, orElseO]
  · intro q p h
    rw [getProcessor] at h
    simp [registerJob, h]

/-- Witness for registerJob_first_registration_wins at a concrete queue and
call sequence: two registrations of "test-job" keep the first processor. -/
theorem registerJob_first_registration_wins_witness :
    getProcessor
        (applyRegisters (mkTypedQueue (bullMQConfig ⟨none, none, none⟩ 4) "main")
          [("test-job", 7), ("test-job", 8), ("other", 9)]) "test-job" =
      firstCall [("test-job", 7), ("test-job", 8), ("other", 9)] "test-job" ∧
    (∀ (q : TypedQueue) (p : Nat),
      (getProcessor q "test-job").isSome → registerJob q "test-job" p = q) :=
  registerJob_first_registration_wins (bullMQConfig ⟨none, none, none⟩ 4) "main"
    [("test-job", 7), ("test-job", 8), ("other", 9)] "test-job"

/-!
The worker dispatch of TypedQueue.createWorker (src/bullmq/registry.ts).
The mainProcessor closure looks up the job name in the processors Map and
throws when it is missing; a processor run is modelled abstractly as a
function from processor ids to a result-or-thrown-error.
-/

/-- The error message thrown by mainProcessor for an unregistered job name,
verbatim from src/bullmq/registry.ts. -/
def noProcessorMessage (q : TypedQueue) (jobName : String) : String :=
  "No processor registered for job \"" ++ jobName ++ "\". Available jobs: " ++
    String.intercalate ", " (getRegisteredJobs q)

/-- The mainProcessor closure of TypedQueue.createWorker: resolve the job name
in the processors Map, throw the no-processor error when it is missing,
otherwise run the matching processor. -/
def mainProcessor (q : TypedQueue) (run : Nat → Except String Nat)
    (jobName : String) : Except String Nat :=
  match mapGet q.processors jobName with
  | none => Except.error (noProcessorMessage q jobName)
  | some p => run p

/-- The outcome that the worker records back for a claimed job. -/
inductive JobOutcome where
  | completedJ (result : Nat)
  | failedJ (reason : String)
deriving DecidableEq

/-- Modelled from the spec: the BullMQ Worker runtime that invokes
mainProcessor is in the BullMQ dependency, not under src. Per the spec,
handler errors are "caught at the slot boundary" and a thrown error is
"recorded as a normal job failure", never a process-level fault: the dispatch
is a total function into JobOutcome, mapping a throw to a failed record. -/
def workerDispatch (q : TypedQueue) (run : Nat → Except String Nat)
    (jobName : String) : JobOutcome :=
  match mainProcessor q run jobName with
  | Except.ok r => JobOutcome.completedJ r
  | Except.error e => JobOutcome.failedJ e

/-- Claim C2: a claimed job whose name has no registered processor is recorded
as a normal job failure whose reason names the missing processor and lists the
registered job names; workerDispatch is total, so the throw is absorbed by the
worker error path and never escapes as a fault of the pool. -/
theorem workerDispatch_missing_processor_fails_normally (q : TypedQueue)
    (run : Nat → Except String Nat) (jobName : String)
    (h : getProcessor q jobName = none) :
    workerDispatch q run jobName =
      JobOutcome.failedJ
        ("No processor registered for job \"" ++ jobName ++
          "\". Available jobs: " ++
          String.intercalate ", " (getRegisteredJobs q)) := by
  rw [getProcessor] at h
  simp [workerDispatch, mainProcessor, h, noProcessorMessage]

/-- Witness for workerDispatch_missing_processor_fails_normally: enqueueing
"echo" with only "test-job" registered fails with the message naming it. -/
theorem workerDispatch_missing_processor_fails_normally_witness :
    workerDispatch
        (registerJob (mkTypedQueue (bullMQConfig ⟨none, none, none⟩ 4) "main")
          "test-job" 7)
        (fun _ => Except.ok 0) "echo" =
      JobOutcome.failedJ
        ("No processor registered for job \"" ++ "echo" ++
          "\". Available jobs: " ++
          String.intercalate ", "
            (getRegisteredJobs
              (registerJob
                (mkTypedQueue (bullMQConfig ⟨none, none, none⟩ 4) "main")
                "test-job" 7))) :=
  workerDispatch_missing_processor_fails_normally _ _ "echo" (by decide)

/-- Claim C8: with the three BULLMQ_* environment variables unset, the
configuration defaults to concurrency = host core count, 3 attempts, and
exponential backoff with 3000 ms base delay, and every TypedQueue passes the
attempts and backoff defaults to its Queue as defaultJobOptions. -/
theorem bullMQConfig_defaults (cpuCount : Nat) (h : 1 ≤ cpuCount)
    (queueName : String) :
    (bullMQConfig ⟨none, none, none⟩ cpuCount).concurrency = cpuCount ∧
    (bullMQConfig ⟨none, none, none⟩ cpuCount).defaultAttempts = 3 ∧
    (bullMQConfig ⟨none, none, none⟩ cpuCount).defaultBackoff =
      ⟨"exponential", 3000⟩ ∧
    (mkTypedQueue (bullMQConfig ⟨none, none, none⟩ cpuCount)
        queueName).queue.defaultJobOptions = ⟨3, ⟨"exponential", 3000⟩⟩ := by
  refine ⟨?_, rfl, rfl, rfl⟩
  simp [bullMQConfig, getDefaultConcurrency]
  omega

/-- Witness for bullMQConfig_defaults on a host with 8 cores. -/
theorem bullMQConfig_defaults_witness :
    (bullMQConfig ⟨none, none, none⟩ 8).concurrency = 8 ∧
    (bullMQConfig ⟨none, none, none⟩ 8).defaultAttempts = 3 ∧
    (bullMQConfig ⟨none, none, none⟩ 8).defaultBackoff =
      ⟨"exponential", 3000⟩ ∧
    (mkTypedQueue (bullMQConfig ⟨none, none, none⟩ 8)
        "main").queue.defaultJobOptions = ⟨3, ⟨"exponential", 3000⟩⟩ :=
  bullMQConfig_defaults 8 (by decide) "main"

/-!
The QueueRegistry singleton (src/bullmq/registry.ts). TypedQueue objects are
identified by ids; the registry state is the queues Map plus a counter handing
out a fresh id whenever the TypedQueue constructor runs.
-/

/-- The QueueRegistry state: the queues Map (name to TypedQueue object id) and
the next fresh object id. -/
structure RegistryState where
  queues : List (String × Nat)
  nextId : Nat

/-- QueueRegistry.getQueue: construct and insert a TypedQueue when the name is
missing from the Map, then return the Map entry for the name. -/
def getQueue (s : RegistryState) (queueName : String) : Nat × RegistryState :=
  match mapGet s.queues queueName with
  | some q => (q, s)
  | none =>
    (s.nextId,
      { queues := s.queues ++ [(queueName, s.nextId)], nextId := s.nextId + 1 })

/-- A sequence of getQueue calls (any interleaving of callers), keeping only
the registry state. -/
def applyGetQueues (s : RegistryState) (names : List String) : RegistryState :=
  names.foldl (fun st n => (getQueue st n).2) s

theorem getQueue_of_mapGet_some (s : RegistryState) (queueName : String)
    (q : Nat) (h : mapGet s.queues queueName = some q) :
    getQueue s queueName = (q, s) := by
  simp [getQueue, h]

theorem getQueue_mapGet_self (s : RegistryState) (queueName : String) :
    mapGet (getQueue s queueName).2.queues queueName =
      some (getQueue s queueName).1 := by
  cases h : mapGet s.queues queueName with
  | some q => simp [getQueue, h]
  | none => simp [getQueue, h, mapGet_append, orElseO, h, mapGet]

theorem getQueue_preserves_binding (s : RegistryState) (queueName n : String)
    (q : Nat) (h : mapGet s.queues queueName = some q) :
    mapGet (getQueue s n).2.queues queueName = some q := by
  cases hn : mapGet s.queues n with
  | some v => simp [getQueue, hn, h]
  | none => simp [getQueue, hn, mapGet_append, h, orElseO]

theorem applyGetQueues_preserves_binding (names : List String)
    (s : RegistryState) (queueName : String) (q : Nat)
    (h : mapGet s.queues queueName = some q) :
    mapGet (applyGetQueues s names).queues queueName = some q := by
  induction names generalizing s with
  | nil => exact h
  | cons n rest ih =>
    have hstep : applyGetQueues s (n :: rest) =
        applyGetQueues (getQueue s n).2 rest := by
      simp [applyGetQueues]
    rw [hstep]
    exact ih _ (getQueue_preserves_binding s queueName n q h)

/-- Claim C9: QueueRegistry.getQueue is idempotent per name: after a first
getQueue call for a name, a later getQueue for the same name — with any other
getQueue calls interleaved in between — returns the same TypedQueue object
and leaves the registry state unchanged, so a TypedQueue is constructed only
on the first call for its name. -/
theorem getQueue_idempotent_per_name (s : RegistryState) (queueName : String)
    (names : List String) :
    (getQueue (applyGetQueues (getQueue s queueName).2 names) queueName).1 =
      (getQueue s queueName).1 ∧
    (getQueue (applyGetQueues (getQueue s queueName).2 names) queueName).2 =
      applyGetQueues (getQueue s queueName).2 names := by
  have hbind :
      mapGet (applyGetQueues (getQueue s queueName).2 names).queues queueName =
        some (getQueue s queueName).1 :=
    applyGetQueues_preserves_binding names _ queueName _
      (getQueue_mapGet_self s queueName)
  rw [getQueue_of_mapGet_some _ _ _ hbind]
  exact ⟨rfl, rfl⟩

/-!
The SSE subscribe route (src/app/api/jobs/[jobId]/subscribe/route.ts).

The route first fetches the job; a missing job yields one error event and
closes. Otherwise it sends an initial snapshot event and, unless the initial
state is already terminal, polls getJob every 500 ms, emitting one event per
tick, until the job is terminal, disappears, a poll throws, or the client
disconnects. The embedding turns the stream body into a pure function from
what each poll tick observes to the emitted events plus an open/closed flag
(true = the interval is still running).
-/

/-- A job.progress value as the route sees it: BullMQ progress is either an
object with progress and message fields, or a bare number; absent stands for
undefined. The route tests it with JavaScript truthiness, so absent and the
number 0 are falsy. -/
inductive JobProgress where
  | objP (progress : Nat) (message : String)
  | numP (n : Nat)
  | absent
deriving DecidableEq

/-- The JavaScript expression `progress || { progress: 0, message: dm }`:
replace a falsy progress by the default object. -/
def progressOrDefault (p : JobProgress) (dm : String) : JobProgress :=
  match p with
  | JobProgress.absent => JobProgress.objP 0 dm
  | JobProgress.numP 0 => JobProgress.objP 0 dm
  | x => x

/-- What the route reads off a fetched job: getState(), progress, and
failedReason. -/
structure JobSnap where
  state : String
  progress : JobProgress
  failedReason : String
deriving DecidableEq

/-- One SSE data event as JSON: an error object, a state snapshot object, or
the final failed object carrying state "failed" and the error field. -/
inductive SSEEvent where
  | errorEv (error : String)
  | stateEv (state : String) (progress : Nat) (message : String)
  | failedEv (error : String)
deriving DecidableEq

/-- The initial snapshot event: default message "Starting...", and a bare
number progress renders as 0 in this branch of the route. -/
def initialEvent (j : JobSnap) : SSEEvent :=
  match progressOrDefault j.progress "Starting..." with
  | JobProgress.objP n m => SSEEvent.stateEv j.state n m
  | JobProgress.numP _ => SSEEvent.stateEv j.state 0 "Starting..."
  | JobProgress.absent => SSEEvent.stateEv j.state 0 "Starting..."

/-- The per-tick snapshot event of the poll loop: default message
"Processing...", and a bare nonzero number renders as itself. -/
def pollEvent (j : JobSnap) : SSEEvent :=
  match progressOrDefault j.progress "Processing..." with
  | JobProgress.objP n m => SSEEvent.stateEv j.state n m
  | JobProgress.numP n => SSEEvent.stateEv j.state n "Processing..."
  | JobProgress.absent => SSEEvent.stateEv j.state 0 "Processing..."

/-- What one tick of the 500 ms poll interval observes: the job with its
current snapshot, the job no longer existing (getJob null), a thrown error
while polling, or the abort signal having fired. -/
inductive PollObs where
  | snap (j : JobSnap)
  | gone
  | pollError
  | disconnect
deriving DecidableEq

/-- One tick of the poll interval: the events it enqueues and whether the
interval keeps running afterwards. -/
def pollStep (o : PollObs) : List SSEEvent × Bool :=
  match o with
  | PollObs.gone => ([], false)
  | PollObs.disconnect => ([], false)
  | PollObs.pollError => ([SSEEvent.errorEv "Failed to fetch job status"], false)
  | PollObs.snap j =>
    if j.state = "completed" then ([pollEvent j], false)
    else if j.state = "failed" then
      ([pollEvent j, SSEEvent.failedEv j.failedReason], false)
    else ([pollEvent j], true)

/-- The poll interval run over a trace of tick observations. -/
def runPoll : List PollObs → List SSEEvent × Bool
  | [] => ([], true)
  | o :: rest =>
    if (pollStep o).2 then
      ((pollStep o).1 ++ (runPoll rest).1, (runPoll rest).2)
    else pollStep o

/-- The whole subscribe stream: the getJob result at request time, then the
poll trace. Returns the emitted events and whether the stream is still open. -/
def subscribeStream (job : Option JobSnap) (polls : List PollObs) :
    List SSEEvent × Bool :=
  match job with
  | none => ([SSEEvent.errorEv "Job not found"], false)
  | some j =>
    if j.state = "completed" then ([initialEvent j], false)
    else if j.state = "failed" then
      ([initialEvent j, SSEEvent.failedEv j.failedReason], false)
    else
      (initialEvent j :: (runPoll polls).1, (runPoll polls).2)

/-- An event announcing a terminal status. -/
def isTerminalEvent : SSEEvent → Bool
  | SSEEvent.stateEv s _ _ => s = "completed" || s = "failed"
  | SSEEvent.failedEv _ => true
  | SSEEvent.errorEv _ => false

/-- The last element of a list of events. -/
def lastEvent {α : Type} : List α → Option α
  | [] => none
  | [a] => some a
  | _ :: b :: rest => lastEvent (b :: rest)

theorem lastEvent_append_single {α : Type} (l : List α) (a : α) :
    lastEvent (l ++ [a]) = some a := by
  induction l with
  | nil => rfl
  | cons x xs ih =>
    cases xs with
    | nil => rfl
    | cons y ys => simpa [lastEvent] using ih

theorem pollStep_snap_cont (j : JobSnap) (h : (pollStep (PollObs.snap j)).2 = true) :
    j.state ≠ "completed" ∧ j.state ≠ "failed" := by
  by_cases hc : j.state = "completed"
  · simp [pollStep, hc] at h
  · by_cases hf : j.state = "failed"
    · simp [pollStep, hc, hf] at h
    · exact ⟨hc, hf⟩

theorem runPoll_cont_append (pre tail : List PollObs)
    (hpre : ∀ o ∈ pre, (pollStep o).2 = true) :
    runPoll (pre ++ tail) =
      ((runPoll pre).1 ++ (runPoll tail).1, (runPoll tail).2) := by
  induction pre with
  | nil => simp [runPoll]
  | cons o rest ih =>
    have ho : (pollStep o).2 = true := hpre o (by simp)
    have hrest : ∀ x ∈ rest, (pollStep x).2 = true := by
      intro x hx
      exact hpre x (by simp [hx])
    simp [runPoll, ho, ih hrest]

theorem subscribeStream_open_initial (j : JobSnap) (polls : List PollObs)
    (h : (pollStep (PollObs.snap j)).2 = true) :
    subscribeStream (some j) polls =
      (initialEvent j :: (runPoll polls).1, (runPoll polls).2) := by
  obtain ⟨hc, hf⟩ := pollStep_snap_cont j h
  simp [subscribeStream, hc, hf]

/-- Claim C5: a subscribe request for a job id that does not exist yields
exactly one event, the error object "Job not found", and the stream closes —
whatever would have followed on the poll interval (which is never started). -/
theorem subscribe_unknown_job_single_error_event (polls : List PollObs) :
    subscribeStream none polls = ([SSEEvent.errorEv "Job not found"], false) :=
  rfl

/-- Claim C10: when the subscribed job ceases to exist between two polls, the
tick that observes it gone closes the stream immediately and emits nothing: the
stream holds only the initial event and the events of the earlier ticks, and
nothing from the gone tick or any later tick. -/
theorem subscribe_job_gone_closes_silently (j0 : JobSnap)
    (pre rest : List PollObs)
    (h0 : (pollStep (PollObs.snap j0)).2 = true)
    (hpre : ∀ o ∈ pre, (pollStep o).2 = true) :
    subscribeStream (some j0) (pre ++ PollObs.gone :: rest) =
      (initialEvent j0 :: (runPoll pre).1, false) := by
  rw [subscribeStream_open_initial j0 _ h0,
    runPoll_cont_append pre (PollObs.gone :: rest) hpre]
  simp [runPoll, pollStep]

/-- Witness for subscribe_job_gone_closes_silently: an active job observed once
then evicted; a later tick would have seen it completed but nothing is sent. -/
theorem subscribe_job_gone_closes_silently_witness :
    subscribeStream (some ⟨"active", JobProgress.objP 10 "working", ""⟩)
        ([PollObs.snap ⟨"active", JobProgress.objP 20 "working", ""⟩] ++
          PollObs.gone ::
            [PollObs.snap ⟨"completed", JobProgress.objP 100 "done", ""⟩]) =
      (initialEvent ⟨"active", JobProgress.objP 10 "working", ""⟩ ::
        (runPoll [PollObs.snap ⟨"active", JobProgress.objP 20 "working", ""⟩]).1,
        false) :=
  subscribe_job_gone_closes_silently
    ⟨"active", JobProgress.objP 10 "working", ""⟩
    [PollObs.snap ⟨"active", JobProgress.objP 20 "working", ""⟩]
    [PollObs.snap ⟨"completed", JobProgress.objP 100 "done", ""⟩]
    (by decide) (by decide)

/-- Counterexample for claim C6: a subscribe stream on an existing job can end
with neither a terminal event nor a client disconnect. Concretely, for an
active job whose first poll tick finds it gone (evicted by retention), the
stream is closed, no emitted event is terminal, and no disconnect occurred. -/
theorem subscribe_stream_terminal_or_disconnect_cex :
    (subscribeStream (some ⟨"active", JobProgress.objP 10 "working", ""⟩)
        [PollObs.gone]).2 = false ∧
    (∀ e ∈ (subscribeStream
        (some ⟨"active", JobProgress.objP 10 "working", ""⟩)
        [PollObs.gone]).1, isTerminalEvent e = false) ∧
    PollObs.disconnect ∉ [PollObs.gone] := by
  decide

/-- Claim C6 as amended: the stream ends after a terminal event, on explicit
client disconnect, or additionally when the job ceases to exist between polls
or a poll throws; the part of the claim that holds as stated is kept here: a
poll tick that observes a terminal status closes the stream at once (nothing
later is emitted), and when that terminal status is failed the final event of
the stream is the JSON object carrying the error field with the job's failure
reason. -/
theorem subscribe_stream_closes_on_terminal (j0 jt : JobSnap)
    (pre rest : List PollObs)
    (h0 : (pollStep (PollObs.snap j0)).2 = true)
    (hpre : ∀ o ∈ pre, (pollStep o).2 = true)
    (ht : jt.state = "completed" ∨ jt.state = "failed") :
    (subscribeStream (some j0) (pre ++ PollObs.snap jt :: rest)).2 = false ∧
    (jt.state = "failed" →
      lastEvent (subscribeStream (some j0) (pre ++ PollObs.snap jt :: rest)).1 =
        some (SSEEvent.failedEv jt.failedReason)) := by
  rw [subscribeStream_open_initial j0 _ h0,
    runPoll_cont_append pre (PollObs.snap jt :: rest) hpre]
  have hterm : (pollStep (PollObs.snap jt)).2 = false := by
    rcases ht with hc | hf
    · simp [pollStep, hc]
    · by_cases hc : jt.state = "completed"
      · simp [pollStep, hc]
      · simp [pollStep, hc, hf]
  constructor
  · simp [runPoll, hterm]
  · intro hf
    have hc : jt.state ≠ "completed" := by
      intro hcc
      rw [hcc] at hf
      exact absurd hf (by decide)
    have hrun : runPoll (PollObs.snap jt :: rest) =
        ([pollEvent jt, SSEEvent.failedEv jt.failedReason], false) := by
      simp [runPoll, pollStep, hc, hf]
    rw [hrun]
    have hsplit :
        initialEvent j0 ::
            ((runPoll pre).1 ++ [pollEvent jt, SSEEvent.failedEv jt.failedReason]) =
          (initialEvent j0 :: ((runPoll pre).1 ++ [pollEvent jt])) ++
            [SSEEvent.failedEv jt.failedReason] := by
      simp
    simp only [hsplit]
    exact lastEvent_append_single _ _

/-- Witness for subscribe_stream_closes_on_terminal: an active job polled once,
then observed failed; a later tick would have seen it completed but nothing is
sent, and the last event carries the failure reason. -/
theorem subscribe_stream_closes_on_terminal_witness :
    ((subscribeStream (some ⟨"active", JobProgress.objP 10 "working", ""⟩)
        ([PollObs.snap ⟨"active", JobProgress.objP 20 "working", ""⟩] ++
          PollObs.snap ⟨"failed", JobProgress.objP 20 "working", "boom"⟩ ::
            [PollObs.snap ⟨"completed", JobProgress.objP 100 "done", ""⟩])).2
      = false) ∧
    (("failed" : String) = "failed" →
      lastEvent
          (subscribeStream (some ⟨"active", JobProgress.objP 10 "working", ""⟩)
            ([PollObs.snap ⟨"active", JobProgress.objP 20 "working", ""⟩] ++
              PollObs.snap ⟨"failed", JobProgress.objP 20 "working", "boom"⟩ ::
                [PollObs.snap ⟨"completed", JobProgress.objP 100 "done", ""⟩])).1 =
        some (SSEEvent.failedEv "boom")) :=
  subscribe_stream_closes_on_terminal
    ⟨"active", JobProgress.objP 10 "working", ""⟩
    ⟨"failed", JobProgress.objP 20 "working", "boom"⟩
    [PollObs.snap ⟨"active", JobProgress.objP 20 "working", ""⟩]
    [PollObs.snap ⟨"completed", JobProgress.objP 100 "done", ""⟩]
    (by decide) (by decide) (Or.inr rfl)

/-- Counterexample for claim C7: the stream does not emit one event per state
or progress change. For an active job whose state and progress never change,
two poll ticks produce three identical events (the initial event plus one per
tick), where the claim demands a single event and no duplicates. -/
theorem subscribe_one_event_per_change_cex :
    subscribeStream (some ⟨"active", JobProgress.objP 10 "working", ""⟩)
        [PollObs.snap ⟨"active", JobProgress.objP 10 "working", ""⟩,
          PollObs.snap ⟨"active", JobProgress.objP 10 "working", ""⟩] =
      ([SSEEvent.stateEv "active" 10 "working",
        SSEEvent.stateEv "active" 10 "working",
        SSEEvent.stateEv "active" 10 "working"], true) := by
  decide

/-- Claim C7 as amended: the stream emits exactly one snapshot event per 500 ms
poll tick while the job exists and is non-terminal, regardless of whether its
state or progress changed since the previous event; unchanged snapshots yield
duplicate events, and updates between two polls are not observed. -/
theorem subscribe_one_event_per_poll_tick (polls : List PollObs)
    (h : ∀ o ∈ polls, (∃ j, o = PollObs.snap j) ∧ (pollStep o).2 = true) :
    (runPoll polls).1.length = polls.length ∧ (runPoll polls).2 = true ∧
    (∀ j : JobSnap, (pollStep (PollObs.snap j)).2 = true →
      pollStep (PollObs.snap j) = ([pollEvent j], true)) := by
  refine ⟨?_, ?_, ?_⟩
  · induction polls with
    | nil => simp [runPoll]
    | cons o rest ih =>
      obtain ⟨⟨j, hj⟩, hcont⟩ := h o (by simp)
      have hone : (pollStep o).1 = [pollEvent j] := by
        obtain ⟨hc, hf⟩ := pollStep_snap_cont j (hj ▸ hcont)
        simp [hj, pollStep, hc, hf]
      have hrest : ∀ x ∈ rest, (∃ j, x = PollObs.snap j) ∧
          (pollStep x).2 = true := by
        intro x hx
        exact h x (by simp [hx])
      simp [runPoll, hcont, hone, ih hrest]
  · induction polls with
    | nil => simp [runPoll]
    | cons o rest ih =>
      have hcont : (pollStep o).2 = true := (h o (by simp)).2
      have hrest : ∀ x ∈ rest, (∃ j, x = PollObs.snap j) ∧
          (pollStep x).2 = true := by
        intro x hx
        exact h x (by simp [hx])
      simp [runPoll, hcont, ih hrest]
  · intro j hc
    obtain ⟨hcc, hff⟩ := pollStep_snap_cont j hc
    simp [pollStep, hcc, hff]

/-- Witness for subscribe_one_event_per_poll_tick: two active ticks with
unchanged snapshots produce exactly two events and leave the stream open. -/
theorem subscribe_one_event_per_poll_tick_witness :
    ((runPoll [PollObs.snap ⟨"active", JobProgress.objP 10 "working", ""⟩,
        PollObs.snap ⟨"active", JobProgress.objP 10 "working", ""⟩]).1.length =
      ([PollObs.snap ⟨"active", JobProgress.objP 10 "working", ""⟩,
        PollObs.snap ⟨"active", JobProgress.objP 10 "working", ""⟩] :
          List PollObs).length) ∧
    ((runPoll [PollObs.snap ⟨"active", JobProgress.objP 10 "working", ""⟩,
        PollObs.snap ⟨"active", JobProgress.objP 10 "working", ""⟩]).2 = true) ∧
    (∀ j : JobSnap, (pollStep (PollObs.snap j)).2 = true →
      pollStep (PollObs.snap j) = ([pollEvent j], true)) :=
  subscribe_one_event_per_poll_tick
    [PollObs.snap ⟨"active", JobProgress.objP 10 "working", ""⟩,
      PollObs.snap ⟨"active", JobProgress.objP 10 "working", ""⟩]
    (by
      intro o ho
      simp only [List.mem_cons, List.mem_singleton] at ho
      rcases ho with h | h | h
      · exact ⟨⟨_, h⟩, by rw [h]; decide⟩
      · exact ⟨⟨_, h⟩, by rw [h]; decide⟩
      · cases h)

/-!
Retention (claim C3). The repository configures removeOnComplete to the count
1000 and removeOnFail to the count 5000 (src/bullmq/config.ts) and passes them
to the BullMQ Worker (TypedQueue.createWorker); the trimming itself runs
inside BullMQ and is modelled from the spec.
-/

/-- The retained terminal records, newest first, as kept under the
removeOnComplete / removeOnFail counts. -/
structure TerminalStore where
  completed : List Nat
  failed : List Nat
deriving DecidableEq

/-- Modelled from the spec: the count-bounded retention that BullMQ applies on
every resolution (not under src). A resolution appends the record to its
terminal set and trims that set to the configured count, deleting oldest
first so the most recent records are retained. A step is (toCompleted, id). -/
def recordResolution (s : TerminalStore) (r : Bool × Nat) : TerminalStore :=
  if r.1 then
    { s with completed := (r.2 :: s.completed).take removeOnCompleteCount }
  else
    { s with failed := (r.2 :: s.failed).take removeOnFailCount }

/-- A whole sequence of resolutions applied to the empty store. -/
def resolveSeq (steps : List (Bool × Nat)) : TerminalStore :=
  steps.foldl recordResolution ⟨[], []⟩

/-- All completions in the sequence, most recent first (the unbounded
history). -/
def completionsOf (steps : List (Bool × Nat)) : List Nat :=
  ((steps.filter (fun s => s.1)).map Prod.snd).reverse

/-- All failures in the sequence, most recent first. -/
def failuresOf (steps : List (Bool × Nat)) : List Nat :=
  ((steps.filter (fun s => !s.1)).map Prod.snd).reverse

theorem resolveSeq_general (steps : List (Bool × Nat)) (hc hf : List Nat) :
    steps.foldl recordResolution
        ⟨hc.take removeOnCompleteCount, hf.take removeOnFailCount⟩ =
      ⟨(completionsOf steps ++ hc).take removeOnCompleteCount,
        (failuresOf steps ++ hf).take removeOnFailCount⟩ := by
  induction steps generalizing hc hf with
  | nil => simp [completionsOf, failuresOf]
  | cons r rest ih =>
    cases r with
    | mk b id =>
      cases b with
      | true =>
        have hstep :
            recordResolution
                ⟨hc.take removeOnCompleteCount, hf.take removeOnFailCount⟩
                (true, id) =
              ⟨(id :: hc).take removeOnCompleteCount,
                hf.take removeOnFailCount⟩ := by
          simp [recordResolution, removeOnCompleteCount, List.take_take]
        have hhist : completionsOf ((true, id) :: rest) ++ hc =
            completionsOf rest ++ id :: hc := by
          simp [completionsOf]
        have hhist2 : failuresOf ((true, id) :: rest) = failuresOf rest := by
          simp [failuresOf]
        simp only [List.foldl_cons, hstep, ih (id :: hc) hf, hhist, hhist2]
      | false =>
        have hstep :
            recordResolution
                ⟨hc.take removeOnCompleteCount, hf.take removeOnFailCount⟩
                (false, id) =
              ⟨hc.take removeOnCompleteCount,
                (id :: hf).take removeOnFailCount⟩ := by
          simp [recordResolution, removeOnFailCount, List.take_take]
        have hhist : failuresOf ((false, id) :: rest) ++ hf =
            failuresOf rest ++ id :: hf := by
          simp [failuresOf]
        have hhist2 : completionsOf ((false, id) :: rest) = completionsOf rest := by
          simp [completionsOf]
        simp only [List.foldl_cons, hstep, ih hc (id :: hf), hhist, hhist2]

/-- Claim C3: after any sequence of resolutions, at most 1000 completed and at
most 5000 failed records are retained, and the retained records are exactly
the most recently finished ones of each kind (the bounded prefix of the
newest-first history), so the oldest terminal records are the ones evicted. -/
theorem retention_bounds_after_resolution (steps : List (Bool × Nat)) :
    (resolveSeq steps).completed =
      (completionsOf steps).take removeOnCompleteCount ∧
    (resolveSeq steps).failed = (failuresOf steps).take removeOnFailCount ∧
    (resolveSeq steps).completed.length ≤ 1000 ∧
    (resolveSeq steps).failed.length ≤ 5000 := by
  have h : resolveSeq steps =
      ⟨(completionsOf steps ++ []).take removeOnCompleteCount,
        (failuresOf steps ++ []).take removeOnFailCount⟩ := by
    have := resolveSeq_general steps [] []
    simpa [resolveSeq] using this
  rw [h]
  refine ⟨by simp, by simp, ?_, ?_⟩
  · simp [removeOnCompleteCount]
  · simp [removeOnFailCount]

/-!
The Job Ledger's atomic claim operation (claim C1). The ledger and its claim
semantics live in the BullMQ dependency (Redis list-pop), not under src, so
they are modelled from the spec: claimNext atomically selects the oldest
eligible record (waiting, or delayed whose due time has passed), flips it to
active owned by the claiming worker slot, stamps processedAt, increments
attemptsMade, and returns it; it returns none when nothing is eligible. Since
every claim is atomic, a concurrent execution of N claimers is an arbitrary
interleaving of atomic claims, modelled as an arbitrary sequence of
(instant, worker) claim calls.
-/

/-- A job record status, with the active owner's worker slot id. -/
inductive JStatus where
  | waiting
  | active (owner : Nat)
  | delayed (due : Nat)
  | completedS
  | failedS
deriving DecidableEq

/-- A ledger job record, with the fields the claim operation touches. -/
structure LJob where
  id : Nat
  createdAt : Nat
  attemptsMade : Nat
  processedAt : Option Nat
  status : JStatus
deriving DecidableEq

/-- Modelled from the spec: the durable work-item ledger, a store of job
records (BullMQ's Redis structures are not under src). -/
structure Ledger where
  jobs : List LJob
deriving DecidableEq

/-- A record eligible for claiming at a given instant: waiting, or delayed
with its due time reached (due time evaluated at claim time). -/
def isEligible (now : Nat) (j : LJob) : Bool :=
  match j.status with
  | JStatus.waiting => true
  | JStatus.delayed due => due ≤ now
  | _ => false

/-- The eligible records of the ledger at an instant. -/
def eligibleJobs (L : Ledger) (now : Nat) : List LJob :=
  L.jobs.filter (isEligible now)

/-- The in-place update claimNext applies to the selected record: flip to
active owned by the worker, increment attemptsMade, stamp processedAt. -/
def claimUpdate (cid now w : Nat) (k : LJob) : LJob :=
  if k.id = cid then
    { k with
      status := JStatus.active w
      attemptsMade := k.attemptsMade + 1
      processedAt := some now }
  else k

/-- Modelled from the spec: Ledger.claimNext — atomically select the oldest
(minimal createdAt) eligible record, flip it to active, and return its id;
none (not an error) when nothing is eligible. -/
def claimNext (L : Ledger) (now w : Nat) : Option Nat × Ledger :=
  match (eligibleJobs L now).argmin LJob.createdAt with
  | none => (none, L)
  | some j => (some j.id, ⟨L.jobs.map (claimUpdate j.id now w)⟩)

/-- All record ids of the ledger. -/
def idsOf (L : Ledger) : List Nat := L.jobs.map LJob.id

/-- The ids of the waiting records. -/
def waitingIds (L : Ledger) : List Nat :=
  L.jobs.filterMap
    (fun j => if j.status = JStatus.waiting then some j.id else none)

/-- The status of the record with a given id. -/
def statusOf (L : Ledger) (id : Nat) : Option JStatus :=
  (L.jobs.find? (fun j => j.id == id)).map LJob.status

/-- Every record is waiting or active: the state space of the property-test
scenario (M waiting jobs under claim; claims only ever produce active). -/
def waActive (L : Ledger) : Prop :=
  ∀ j ∈ L.jobs, j.status = JStatus.waiting ∨ ∃ w, j.status = JStatus.active w

/-- An interleaving of atomic claim calls, each by some worker at some
instant; returns the (worker, claimed id) pairs and the final ledger. -/
def runClaims (L : Ledger) (calls : List (Nat × Nat)) :
    List (Nat × Nat) × Ledger :=
  match calls with
  | [] => ([], L)
  | (now, w) :: rest =>
    match claimNext L now w with
    | (none, L1) => runClaims L1 rest
    | (some cid, L1) =>
      ((w, cid) :: (runClaims L1 rest).1, (runClaims L1 rest).2)

theorem claimUpdate_id (cid now w : Nat) (k : LJob) :
    (claimUpdate cid now w k).id = k.id := by
  by_cases h : k.id = cid <;> simp [claimUpdate, h]

theorem claimUpdate_status (cid now w : Nat) (k : LJob) :
    (claimUpdate cid now w k).status =
      if k.id = cid then JStatus.active w else k.status := by
  by_cases h : k.id = cid <;> simp [claimUpdate, h]

theorem eligible_waiting (L : Ledger) (now : Nat) (j : LJob) (hwa : waActive L)
    (hj : j ∈ L.jobs) (he : isEligible now j = true) :
    j.status = JStatus.waiting := by
  rcases hwa j hj with h | ⟨w, h⟩
  · exact h
  · simp [isEligible, h] at he

theorem claimNext_none (L : Ledger) (now w : Nat) (L1 : Ledger)
    (h : claimNext L now w = (none, L1)) :
    L1 = L ∧ waitingIds L = [] := by
  rw [claimNext] at h
  cases harg : (eligibleJobs L now).argmin LJob.createdAt with
  | some j => rw [harg] at h; simp at h
  | none =>
    rw [harg] at h
    simp only [Prod.mk.injEq] at h
    have hemp : eligibleJobs L now = [] := List.argmin_eq_none.mp harg
    refine ⟨h.2.symm, ?_⟩
    rw [waitingIds, List.filterMap_eq_nil_iff]
    intro j hj
    by_cases hw : j.status = JStatus.waiting
    · exfalso
      have hmem : j ∈ eligibleJobs L now :=
        List.mem_filter.mpr ⟨hj, by simp [isEligible, hw]⟩
      rw [hemp] at hmem
      exact absurd hmem (List.not_mem_nil j)
    · simp [hw]

theorem claimNext_some_facts (L : Ledger) (now w cid : Nat) (L1 : Ledger)
    (h : claimNext L now w = (some cid, L1)) :
    ∃ j, j ∈ L.jobs ∧ isEligible now j = true ∧ j.id = cid ∧
      L1.jobs = L.jobs.map (claimUpdate cid now w) := by
  rw [claimNext] at h
  cases harg : (eligibleJobs L now).argmin LJob.createdAt with
  | none => rw [harg] at h; simp at h
  | some j =>
    rw [harg] at h
    simp only [Prod.mk.injEq, Option.some.injEq] at h
    obtain ⟨hid, hL1⟩ := h
    have hjel : j ∈ eligibleJobs L now := List.argmin_mem harg
    obtain ⟨hjmem, helig⟩ := List.mem_filter.mp hjel
    exact ⟨j, hjmem, helig, hid, by rw [← hL1, hid]⟩

theorem idsOf_claimUpdate (L L1 : Ledger) (cid now w : Nat)
    (hL1 : L1.jobs = L.jobs.map (claimUpdate cid now w)) :
    idsOf L1 = idsOf L := by
  rw [idsOf, idsOf, hL1, List.map_map]
  exact List.map_congr_left (fun k _ => claimUpdate_id cid now w k)

theorem waActive_claimUpdate (L L1 : Ledger) (cid now w : Nat)
    (hwa : waActive L) (hL1 : L1.jobs = L.jobs.map (claimUpdate cid now w)) :
    waActive L1 := by
  intro j hj
  rw [hL1] at hj
  obtain ⟨k, hk, rfl⟩ := List.mem_map.mp hj
  by_cases hid : k.id = cid
  · exact Or.inr ⟨w, by simp [claimUpdate, hid]⟩
  · have := hwa k hk
    simpa [claimUpdate, hid] using this

theorem filterMap_waiting_claimUpdate (jobs : List LJob) (cid now w : Nat) :
    (jobs.map (claimUpdate cid now w)).filterMap
        (fun j => if j.status = JStatus.waiting then some j.id else none) =
      (jobs.filterMap
        (fun j => if j.status = JStatus.waiting then some j.id else none)).filter
        (fun x => x ≠ cid) := by
  induction jobs with
  | nil => rfl
  | cons k rest ih =>
    by_cases hid : k.id = cid
    · by_cases hw : k.status = JStatus.waiting
      · simp [List.filterMap_cons, claimUpdate, hid, hw, ih, List.filter_cons]
      · simp [List.filterMap_cons, claimUpdate, hid, hw, ih]
    · by_cases hw : k.status = JStatus.waiting
      · simp [List.filterMap_cons, claimUpdate, hid, hw, ih, List.filter_cons]
      · simp [List.filterMap_cons, claimUpdate, hid, hw, ih]

theorem waitingIds_claimUpdate (L L1 : Ledger) (cid now w : Nat)
    (hL1 : L1.jobs = L.jobs.map (claimUpdate cid now w)) :
    waitingIds L1 = (waitingIds L).filter (fun x => x ≠ cid) := by
  rw [waitingIds, waitingIds, hL1]
  exact filterMap_waiting_claimUpdate L.jobs cid now w

theorem statusOf_claimUpdate_claimed (L L1 : Ledger) (cid now w : Nat)
    (hmem : ∃ j, j ∈ L.jobs ∧ j.id = cid)
    (hL1 : L1.jobs = L.jobs.map (claimUpdate cid now w)) :
    statusOf L1 cid = some (JStatus.active w) := by
  obtain ⟨j, hj, hjid⟩ := hmem
  rw [statusOf, hL1, List.find?_map]
  have hpred : ((fun k : LJob => k.id == cid) ∘ claimUpdate cid now w) =
      (fun k : LJob => k.id == cid) := by
    funext k
    simp [Function.comp, claimUpdate_id]
  rw [hpred]
  have hsome : (L.jobs.find? (fun k => k.id == cid)).isSome := by
    rw [List.find?_isSome]
    exact ⟨j, hj, by simp [hjid]⟩
  obtain ⟨k0, hk0⟩ := Option.isSome_iff_exists.mp hsome
  have hk0id : k0.id = cid := by simpa using List.find?_some hk0
  rw [hk0]
  simp [claimUpdate, hk0id]

theorem statusOf_claimUpdate_other (L L1 : Ledger) (cid now w idq : Nat)
    (hne : idq ≠ cid)
    (hL1 : L1.jobs = L.jobs.map (claimUpdate cid now w)) :
    statusOf L1 idq = statusOf L idq := by
  rw [statusOf, statusOf, hL1, List.find?_map]
  have hpred : ((fun k : LJob => k.id == idq) ∘ claimUpdate cid now w) =
      (fun k : LJob => k.id == idq) := by
    funext k
    simp [Function.comp, claimUpdate_id]
  rw [hpred]
  cases hf : L.jobs.find? (fun k => k.id == idq) with
  | none => simp
  | some k0 =>
    have hk0id : k0.id = idq := by simpa using List.find?_some hf
    have hkeep : claimUpdate cid now w k0 = k0 := by
      simp [claimUpdate, hk0id, hne]
    simp [hkeep]

theorem waitingIds_sublist_idsOf (L : Ledger) : List.Sublist (waitingIds L) (idsOf L) := by
  rw [waitingIds, idsOf]
  induction L.jobs with
  | nil => simp
  | cons k rest ih =>
    by_cases hw : k.status = JStatus.waiting
    · simpa [List.filterMap_cons, hw] using List.Sublist.cons₂ k.id ih
    · simpa [List.filterMap_cons, hw] using List.Sublist.cons k.id ih

theorem length_filter_ne_of_nodup (l : List Nat) (cid : Nat)
    (hd : l.Nodup) (hm : cid ∈ l) :
    (l.filter (fun x => x ≠ cid)).length + 1 = l.length := by
  induction l with
  | nil => cases hm
  | cons a rest ih =>
    obtain ⟨hnotin, hdr⟩ := List.nodup_cons.mp hd
    rcases List.mem_cons.mp hm with rfl | hmr
    · have hself : rest.filter (fun x => x ≠ cid) = rest := by
        rw [List.filter_eq_self]
        intro x hx
        simp only [ne_eq, decide_eq_true_eq]
        intro hxa
        exact hnotin (hxa ▸ hx)
      have hcons0 : (cid :: rest).filter (fun x => x ≠ cid) =
          rest.filter (fun x => x ≠ cid) := by
        simp [List.filter_cons]
      rw [hcons0, hself, List.length_cons]
    · by_cases ha : a = cid
      · exact absurd (ha ▸ hmr) hnotin
      · have ihr := ih hdr hmr
        have hcons : (a :: rest).filter (fun x => x ≠ cid) =
            a :: rest.filter (fun x => x ≠ cid) := by
          simp [List.filter_cons, ha]
        rw [hcons, List.length_cons, List.length_cons]
        omega

theorem runClaims_spec (calls : List (Nat × Nat)) (L : Ledger)
    (hn : (idsOf L).Nodup) (hwa : waActive L) :
    idsOf (runClaims L calls).2 = idsOf L ∧
    waActive (runClaims L calls).2 ∧
    ((runClaims L calls).1.map Prod.snd).Nodup ∧
    (∀ p ∈ (runClaims L calls).1, p.2 ∈ waitingIds L) ∧
    (∀ idq, idq ∉ waitingIds L →
      statusOf (runClaims L calls).2 idq = statusOf L idq) ∧
    (∀ p ∈ (runClaims L calls).1,
      statusOf (runClaims L calls).2 p.2 = some (JStatus.active p.1)) ∧
    (runClaims L calls).1.length = min calls.length (waitingIds L).length := by
  induction calls generalizing L with
  | nil =>
    refine ⟨rfl, hwa, by simp [runClaims], by simp [runClaims],
      fun _ _ => rfl, by simp [runClaims], by simp [runClaims]⟩
  | cons c rest ih =>
    obtain ⟨now, w⟩ := c
    cases hr : claimNext L now w with
    | mk r L1 =>
      cases r with
      | none =>
        obtain ⟨hL1, hwemp⟩ := claimNext_none L now w L1 hr
        rw [hL1] at hr
        have hrun : runClaims L ((now, w) :: rest) = runClaims L rest := by
          simp [runClaims, hr]
        rw [hrun]
        obtain ⟨h1, h2, h3, h4, h5, h6, h7⟩ := ih L hn hwa
        refine ⟨h1, h2, h3, h4, h5, h6, ?_⟩
        rw [h7, hwemp]
        simp
      | some cid =>
        obtain ⟨j, hjmem, helig, hjid, hL1jobs⟩ :=
          claimNext_some_facts L now w cid L1 hr
        have hwj : j.status = JStatus.waiting :=
          eligible_waiting L now j hwa hjmem helig
        have hcidw : cid ∈ waitingIds L := by
          rw [waitingIds, List.mem_filterMap]
          exact ⟨j, hjmem, by simp [hwj, hjid]⟩
        have ids1 : idsOf L1 = idsOf L := idsOf_claimUpdate L L1 cid now w hL1jobs
        have hn1 : (idsOf L1).Nodup := ids1 ▸ hn
        have hwa1 : waActive L1 := waActive_claimUpdate L L1 cid now w hwa hL1jobs
        have hw1 : waitingIds L1 = (waitingIds L).filter (fun x => x ≠ cid) :=
          waitingIds_claimUpdate L L1 cid now w hL1jobs
        have hstc : statusOf L1 cid = some (JStatus.active w) :=
          statusOf_claimUpdate_claimed L L1 cid now w ⟨j, hjmem, hjid⟩ hL1jobs
        have hsto : ∀ idq, idq ≠ cid → statusOf L1 idq = statusOf L idq :=
          fun idq hne => statusOf_claimUpdate_other L L1 cid now w idq hne hL1jobs
        have hrun : runClaims L ((now, w) :: rest) =
            ((w, cid) :: (runClaims L1 rest).1, (runClaims L1 rest).2) := by
          simp [runClaims, hr]
        have hsub1 : ∀ x ∈ waitingIds L1, x ∈ waitingIds L ∧ x ≠ cid := by
          intro x hx
          rw [hw1] at hx
          obtain ⟨hxm, hxne⟩ := List.mem_filter.mp hx
          exact ⟨hxm, by simpa using hxne⟩
        have hcidnot1 : cid ∉ waitingIds L1 := by
          intro hmem
          exact absurd rfl (hsub1 cid hmem).2
        obtain ⟨g1, g2, g3, g4, g5, g6, g7⟩ := ih L1 hn1 hwa1
        rw [hrun]
        refine ⟨by simpa [ids1] using g1, g2, ?_, ?_, ?_, ?_, ?_⟩
        · simp only [List.map_cons, List.nodup_cons]
          refine ⟨?_, g3⟩
          intro hmem
          obtain ⟨p, hp, hps⟩ := List.mem_map.mp hmem
          exact absurd (hps ▸ g4 p hp) hcidnot1
        · intro p hp
          rcases List.mem_cons.mp hp with rfl | hp'
          · exact hcidw
          · exact (hsub1 p.2 (g4 p hp')).1
        · intro idq hidq
          have hne : idq ≠ cid := fun h => hidq (h ▸ hcidw)
          have hidq1 : idq ∉ waitingIds L1 := by
            intro hmem
            exact hidq (hsub1 idq hmem).1
          rw [g5 idq hidq1, hsto idq hne]
        · intro p hp
          rcases List.mem_cons.mp hp with rfl | hp'
          · rw [g5 cid hcidnot1, hstc]
          · exact g6 p hp'
        · have hwlen : (waitingIds L1).length + 1 = (waitingIds L).length := by
            rw [hw1]
            exact length_filter_ne_of_nodup (waitingIds L) cid
              ((waitingIds_sublist_idsOf L).nodup hn) hcidw
          simp only [List.length_cons, g7]
          omega

/-- Claim C1: no two concurrent claim calls ever return the same record id.
For any ledger of distinct-id records that are all waiting or active, and any
interleaving of atomic claim calls by N workers: the returned ids are pairwise
distinct, each returned id was a waiting record, with at least as many claim
calls as waiting jobs the returned ids are exactly a permutation of the M
waiting jobs (a duplicate-free partition covering all of them), and in the
resulting ledger every claimed record is active and owned precisely by the
worker slot whose call claimed it — at most one owner per record at any
instant, since the theorem applies to every prefix of the interleaving. -/
theorem claim_calls_partition_waiting (L : Ledger) (calls : List (Nat × Nat))
    (hn : (idsOf L).Nodup) (hwa : waActive L) :
    ((runClaims L calls).1.map Prod.snd).Nodup ∧
    (∀ p ∈ (runClaims L calls).1, p.2 ∈ waitingIds L) ∧
    ((waitingIds L).length ≤ calls.length →
      List.Perm ((runClaims L calls).1.map Prod.snd) (waitingIds L)) ∧
    (∀ p ∈ (runClaims L calls).1,
      statusOf (runClaims L calls).2 p.2 = some (JStatus.active p.1)) := by
  obtain ⟨h1, h2, h3, h4, h5, h6, h7⟩ := runClaims_spec calls L hn hwa
  refine ⟨h3, h4, ?_, h6⟩
  intro hle
  have hsubset : (runClaims L calls).1.map Prod.snd ⊆ waitingIds L := by
    intro x hx
    obtain ⟨p, hp, rfl⟩ := List.mem_map.mp hx
    exact h4 p hp
  have hsp := List.subperm_of_subset h3 hsubset
  apply hsp.perm_of_length_le
  have hlm : ((runClaims L calls).1.map Prod.snd).length =
      (runClaims L calls).1.length := List.length_map _ _
  omega

/-- Witness for claim_calls_partition_waiting: two workers claim from a ledger
of two waiting jobs; the claimed ids are distinct, cover both jobs, and each
job ends active under exactly its claimer. -/
theorem claim_calls_partition_waiting_witness :
    ((runClaims ⟨[⟨1, 0, 0, none, JStatus.waiting⟩,
        ⟨2, 5, 0, none, JStatus.waiting⟩]⟩ [(10, 100), (10, 101)]).1.map
          Prod.snd).Nodup ∧
    (∀ p ∈ (runClaims ⟨[⟨1, 0, 0, none, JStatus.waiting⟩,
        ⟨2, 5, 0, none, JStatus.waiting⟩]⟩ [(10, 100), (10, 101)]).1,
      p.2 ∈ waitingIds ⟨[⟨1, 0, 0, none, JStatus.waiting⟩,
        ⟨2, 5, 0, none, JStatus.waiting⟩]⟩) ∧
    (List.Perm
      ((runClaims ⟨[⟨1, 0, 0, none, JStatus.waiting⟩,
        ⟨2, 5, 0, none, JStatus.waiting⟩]⟩ [(10, 100), (10, 101)]).1.map
          Prod.snd)
      (waitingIds ⟨[⟨1, 0, 0, none, JStatus.waiting⟩,
        ⟨2, 5, 0, none, JStatus.waiting⟩]⟩)) ∧
    (∀ p ∈ (runClaims ⟨[⟨1, 0, 0, none, JStatus.waiting⟩,
        ⟨2, 5, 0, none, JStatus.waiting⟩]⟩ [(10, 100), (10, 101)]).1,
      statusOf (runClaims ⟨[⟨1, 0, 0, none, JStatus.waiting⟩,
          ⟨2, 5, 0, none, JStatus.waiting⟩]⟩ [(10, 100), (10, 101)]).2 p.2 =
        some (JStatus.active p.1)) := by
  have hwa : waActive ⟨[⟨1, 0, 0, none, JStatus.waiting⟩,
      ⟨2, 5, 0, none, JStatus.waiting⟩]⟩ := by
    intro j hj
    simp only [List.mem_cons, List.not_mem_nil, or_false] at hj
    rcases hj with rfl | rfl
    · exact Or.inl rfl
    · exact Or.inl rfl
  have h := claim_calls_partition_waiting
    ⟨[⟨1, 0, 0, none, JStatus.waiting⟩, ⟨2, 5, 0, none, JStatus.waiting⟩]⟩
    [(10, 100), (10, 101)] (by decide) hwa
  exact ⟨h.1, h.2.1, h.2.2.1 (by decide), h.2.2.2⟩
